import Mathlib

/-
Verification development for the `ccc` crawler (main.go).

The Go program crawls the Vatican web archive of the Catechism: it follows
a linear chain of pages connected by links labeled "Next", extracts numbered
paragraphs from each page, deduplicates them into a map keyed by paragraph
number, and caches every raw HTTP response on disk keyed by a filename
derived from the URL.

Below, each Go function is shallowly embedded as an executable Lean
definition of the same name.  Machine integers are modelled as Nat with an
explicit bound where Go overflow matters (strconv.Atoi on a 64-bit int).
Effectful code (the on-disk cache and the network in getOnce) is modelled
by explicit state passing over a World record; os.Exit is modelled by an
Option-valued result (none = the process terminated).
-/

set_option autoImplicit false

namespace CCC

/-! ## Characters and digit parsing (regexp `^(\d+)` and strconv.Atoi) -/

/-- The longest prefix of decimal digits of a string, as a character list.
This embeds the capture group of the Go regular expression `^(\d+)`
(main.go line 213): the anchored, greedy run of ASCII digits. -/
def leadingDigits : List Char → List Char
  | [] => []
  | c :: cs => if c.isDigit then c :: leadingDigits cs else []

/-- Decimal value of a digit string (most significant digit first). -/
def digitsToNat (ds : List Char) : Nat :=
  ds.foldl (fun a c => 10 * a + (c.toNat - 48)) 0

/-- Largest value of Go's `int` on a 64-bit platform: 2^63 - 1. -/
def intMax : Nat := 9223372036854775807

/-- Embeds `strconv.Atoi` applied to a nonempty all-digit string (the only
shape the program passes it from the regexp capture): it returns the decimal
value, or an error when the value overflows a 64-bit signed int. -/
def atoiDigits (ds : List Char) : Option Nat :=
  if digitsToNat ds ≤ intMax then some (digitsToNat ds) else none

/-- Embeds `extractNumber` (main.go lines 212-223): match `^(\d+)` against
the string; on a match, `strconv.Atoi` the captured digits; any failure
yields `(0, false)`. -/
def extractNumber (s : List Char) : Nat × Bool :=
  let ds := leadingDigits s
  if ds = [] then (0, false)
  else
    match atoiDigits ds with
    | some n => (n, true)
    | none => (0, false)

/-! ## Documents: anchors, pages, the next-link scan -/

/-- An `<a>` node of a parsed page: its flattened visible text and its
`href` attribute.  (goquery s.Text() / s.Attr("href")). -/
structure Anchor where
  text : String
  href : String
deriving DecidableEq, Repr

/-- A parsed page as the program observes it through goquery:
the flattened texts of its `<p>` nodes and its `<a>` nodes,
each in document order. -/
structure Page where
  paras : List String
  anchors : List Anchor
deriving DecidableEq, Repr

/-- Embeds `getNextLink` (main.go lines 201-210).  `doc.Find("a").Each`
visits every anchor in document order; the callback assigns `next = s`
for each anchor whose text is exactly "Next".  The `return` statement
inside the callback only leaves the callback, not the loop, so every later
match overwrites an earlier one. -/
def getNextLink (anchors : List Anchor) : Option Anchor :=
  anchors.foldl (fun nxt a => if a.text == "Next" then some a else nxt) none

/-! ## Lexical path cleaning (Go path.Clean / filepath.Clean on unix) -/

/-- Split a character list at every slash; a string of n slashes yields
n+1 (possibly empty) segments, as Go's element scan does. -/
def splitSlash : List Char → List (List Char)
  | [] => [[]]
  | c :: cs =>
    let r := splitSlash cs
    if c = '/' then [] :: r
    else
      match r with
      | [] => [[c]]
      | s :: rest => (c :: s) :: rest

/-- One pass of the lexical cleaning loop shared by Go's `path.Clean` and
(on unix) `filepath.Clean`: empty and "." segments vanish; ".." pops the
previous real segment, is dropped at the root, and accumulates at the front
of a relative path.  `acc` holds the output segments in reverse. -/
def cleanCore (rooted : Bool) (acc : List (List Char)) : List (List Char) → List (List Char)
  | [] => acc.reverse
  | seg :: rest =>
    if seg = [] ∨ seg = ['.'] then cleanCore rooted acc rest
    else if seg = ['.', '.'] then
      match acc with
      | [] => cleanCore rooted (if rooted then [] else [seg]) rest
      | top :: acc2 =>
        if top = ['.', '.'] then cleanCore rooted (seg :: acc) rest
        else cleanCore rooted acc2 rest
    else cleanCore rooted (seg :: acc) rest

/-- Whether a path is rooted (begins with a slash). -/
def isRooted : List Char → Bool
  | [] => false
  | c :: _ => c == '/'

/-- Join segments back with single slashes. -/
def joinSegs : List (List Char) → List Char
  | [] => []
  | [s] => s
  | s :: rest => s ++ '/' :: joinSegs rest

/-- Embeds Go's `path.Clean` / `filepath.Clean` (unix): shortest lexical
equivalent path; the empty path cleans to ".". -/
def pathClean (p : List Char) : List Char :=
  if p = [] then ['.']
  else
    let segs := cleanCore (isRooted p) [] (splitSlash p)
    if isRooted p then '/' :: joinSegs segs
    else if segs = [] then ['.'] else joinSegs segs

/-- Embeds Go's `path.Join` of two elements, the first nonempty (the
constant archive root): concatenate with a slash and clean; an empty second
element leaves just the cleaned first. -/
def pathJoin (a b : List Char) : List Char :=
  if b = [] then pathClean a else pathClean (a ++ '/' :: b)

/-! ## URL resolution (vaticanURL, main.go lines 225-242) -/

/-- ASCII lowercasing of one character; agrees with Go's strings.ToLower on
the ASCII inputs this program handles. -/
def asciiLower (c : Char) : Char :=
  if 'A' ≤ c ∧ c ≤ 'Z' then Char.ofNat (c.toNat + 32) else c

/-- Embeds `strings.HasPrefix(strings.ToLower(s), "http")`
(main.go line 227). -/
def lowerHttp (s : List Char) : Bool :=
  (s.take 4).map asciiLower == "http".data

/-- The fixed base host (main.go line 64). -/
def vatican : String := "https://www.vatican.va"

/-- The fixed archive root path (main.go line 65). -/
def archeng : String := "/archive/ENG0015"

/-- Embeds `vaticanURL` (main.go lines 225-242).  If the lowercased input
starts with "http" it is returned unchanged; otherwise the input is joined
under the archive root with `path.Join` and resolved against the base URL.
Since the joined path is always rooted, `u.ResolveReference(rel).String()`
is the base scheme-and-host followed by the joined path (modelled for
inputs without percent-escapes, query or fragment parts, which is every
input the program produces and every input the claims mention). -/
def vaticanURL (relativePath : String) : String :=
  if lowerHttp relativePath.data then relativePath
  else vatican ++ String.mk (pathJoin archeng.data relativePath.data)

/-- The crawl's start page (main.go line 68): `vaticanURL("/__P2.HTM")`. -/
def vaticanFirstPage : String := vaticanURL "/__P2.HTM"

/-! ## Cache filenames (urlToFilename, main.go lines 70-90) -/

/-- Drop characters up to (excluding) the first slash. -/
def dropToSlash : List Char → List Char
  | [] => []
  | c :: cs => if c = '/' then c :: cs else dropToSlash cs

/-- Models the `u.Path` component produced by Go's `url.Parse` for the URL
shapes this program handles: for an absolute http(s) URL the path starts at
the first slash after the authority; a plain relative path reference
(no scheme, query, fragment or percent-escape) parses to itself. -/
def urlPath (s : List Char) : List Char :=
  if s.take 7 = "http://".data then dropToSlash (s.drop 7)
  else if s.take 8 = "https://".data then dropToSlash (s.drop 8)
  else s

/-- `strings.ReplaceAll(path, "/", "_")` (main.go line 82). -/
def replaceSlashes (p : List Char) : List Char :=
  p.map (fun c => if c = '/' then '_' else c)

/-- `strings.TrimRight(s, "_")` (main.go line 82): drop every trailing
underscore. -/
def trimUnderscores (p : List Char) : List Char :=
  (p.reverse.dropWhile (fun c => c = '_')).reverse

/-- The character class of the Go regular expression `[<>:"|?*]`
(main.go line 85). -/
def illegalChar (c : Char) : Bool :=
  c = '<' || c = '>' || c = ':' || c = '"' || c = '|' || c = '?' || c = '*'

/-- `illegalChars.ReplaceAllString(path, "")` (main.go line 86). -/
def removeIllegal (p : List Char) : List Char :=
  p.filter (fun c => !illegalChar c)

/-- Embeds `urlToFilename` (main.go lines 70-90): take the URL's path,
replace slashes by underscores, trim trailing underscores, delete the
characters illegal in filenames, and `filepath.Clean` the result. -/
def urlToFilename (urlStr : String) : String :=
  String.mk (pathClean (removeIllegal (trimUnderscores (replaceSlashes (urlPath urlStr.data)))))

/-- The cache file used for a URL (main.go line 96). -/
def cacheFilename (url : String) : String :=
  "cache/" ++ urlToFilename url

/-! ## The cache store (getOnce, main.go lines 94-138) -/

/-- State of one cache file: missing, present with bytes, or present but
not readable back (os.Stat succeeds, ioutil.ReadFile fails). -/
inductive FileEntry where
  | absent
  | present (bytes : List Nat)
  | unreadable
deriving DecidableEq, Repr

/-- The world getOnce interacts with: the cache directory, the network
(mapping a URL to the dumped wire bytes of a successful response, or none
for a transport error) and which file creations fail. -/
structure World where
  fs : String → FileEntry
  net : String → Option (List Nat)
  createFails : String → Bool

/-- Outcome of one getOnce call: the returned bytes (`none` means the
process called os.Exit), the world afterwards and how many network
requests were made. -/
structure FetchOut where
  result : Option (List Nat)
  world : World
  netCalls : Nat

/-- Embeds the final `ioutil.ReadFile` of getOnce (main.go lines 132-137):
a present file returns its bytes; a read failure only prints a diagnostic,
leaving `data` nil, so the empty byte list is returned. -/
def readBack (w : World) (fn : String) : List Nat :=
  match w.fs fn with
  | FileEntry.present b => b
  | _ => []

/-- The absolute URL getOnce fetches (main.go lines 102-105): the input if
it starts with "http" (case-sensitive here), else `vaticanURL` of it. -/
def urlFull (u : String) : String :=
  if u.data.take 4 = "http".data then u else vaticanURL u

/-- Embeds `getOnce` (main.go lines 94-138).  If the cache file is absent,
GET the full URL (exit on transport error), create the cache file (exit on
create error), write the dumped response, then read the file back and
return its bytes.  If the file exists — readable or not — no network
request happens and the file is read back directly. -/
def getOnce (w : World) (url : String) : FetchOut :=
  match w.fs (cacheFilename url) with
  | FileEntry.absent =>
    match w.net (urlFull url) with
    | none => ⟨none, w, 1⟩
    | some body =>
      if w.createFails (cacheFilename url) then ⟨none, w, 1⟩
      else
        let w2 : World :=
          { w with fs := fun m => if m = cacheFilename url then FileEntry.present body else w.fs m }
        ⟨some (readBack w2 (cacheFilename url)), w2, 1⟩
  | _ => ⟨some (readBack w (cacheFilename url)), w, 0⟩

/-! ## The paragraph index and the crawl (getCatechism, main.go lines 140-179) -/

/-- A numbered paragraph as the crawl stores it (main.go lines 56-61,
159-162); the References field is never populated and is omitted. -/
structure Paragraph where
  number : Nat
  text : String
deriving DecidableEq, Repr

/-- The `map[int]Paragraph` of getCatechism, modelled as an association
list in insertion order; keys are unique because insertion is guarded by a
membership test. -/
abbrev Index := List (Nat × Paragraph)

/-- Map lookup: the first (and, by the insertion guard, only) entry with
the given key. -/
def idxLookup (m : Index) (n : Nat) : Option Paragraph :=
  (m.find? (fun e => e.1 == n)).map (fun e => e.2)

/-- Embeds the `doc.Find("p").Each` body of getCatechism (main.go lines
154-164): for each paragraph node in document order, extract a leading
number; insert `{Number: num, Text: s.Text()}` only when extraction
succeeded and the number is not yet a key of the map. -/
def processPage : Index → List String → Index
  | m, [] => m
  | m, t :: ts =>
    processPage
      (if (extractNumber t.data).2 && (idxLookup m (extractNumber t.data).1).isNone
       then m ++ [((extractNumber t.data).1, ⟨(extractNumber t.data).1, t⟩)]
       else m)
      ts

/-- The candidate (number, text) pairs a page's paragraph nodes produce, in
document order, before any deduplication (spec section 4.3). -/
def candidates (ts : List String) : List (Nat × String) :=
  ts.filterMap
    (fun t => if (extractNumber t.data).2 then some ((extractNumber t.data).1, t) else none)

/-- Embeds the page loop of `getCatechism` (main.go lines 140-179) over an
abstract web (URL to parsed page; `none` models a fetch or parse failure,
which the program treats as fatal).  The Go loop has no termination guard,
so it is given fuel: `none` also results when the fuel runs out before a
page without a "Next" link is reached.  The `visited` accumulator is ghost
instrumentation recording the URLs processed, in order. -/
def getCatechism (web : String → Option Page) :
    Nat → String → Index → List String → Option (Index × List String)
  | 0, _, _, _ => none
  | fuel + 1, url, m, visited =>
    match web url with
    | none => none
    | some page =>
      match getNextLink page.anchors with
      | none => some (processPage m page.paras, visited ++ [url])
      | some a =>
        getCatechism web fuel (vaticanURL a.href) (processPage m page.paras) (visited ++ [url])

/-- A finite linear pagination chain in a web: every page of the list is
served, each page but the last yields a "Next" anchor resolving to the next
URL of the list, and the last page yields none.  This is the premise of the
spec's termination property. -/
inductive Chain (web : String → Option Page) : List String → Prop
  | single (u : String) (p : Page) :
      web u = some p → getNextLink p.anchors = none → Chain web [u]
  | cons (u v : String) (p : Page) (a : Anchor) (rest : List String) :
      web u = some p → getNextLink p.anchors = some a → vaticanURL a.href = v →
      Chain web (v :: rest) → Chain web (u :: v :: rest)

/-- The key-consistency invariant of the index: every stored paragraph's
Number equals its key, and its Text starts with a digit run whose value is
that key. -/
def IndexInv (m : Index) : Prop :=
  ∀ e ∈ m, e.2.number = e.1 ∧
    leadingDigits e.2.text.data ≠ [] ∧
    digitsToNat (leadingDigits e.2.text.data) = e.1

/-- Embeds the lookup of main (main.go line 191):
`paragraphs[paragraphNumber].Text` yields the Text of the stored paragraph,
or of Go's zero-value Paragraph (Number 0, empty Text) when the key is
absent. -/
def lookupText (m : Index) (n : Nat) : String :=
  ((idxLookup m n).getD ⟨0, ""⟩).text

/-! ## Concrete inputs used by witnesses and counterexamples -/

/-- First of two "Next" anchors of the C1 counterexample page. -/
def nextA : Anchor := ⟨"Next", "one.htm"⟩

/-- Second of two "Next" anchors of the C1 counterexample page. -/
def nextB : Anchor := ⟨"Next", "two.htm"⟩

/-- A world with an empty cache, a network serving every URL the bytes
[7], and no file-creation failures. -/
def worldCold : World :=
  { fs := fun _ => FileEntry.absent
    net := fun _ => some [7]
    createFails := fun _ => false }

/-- A world whose cache files all exist but cannot be read back. -/
def worldUnreadable : World :=
  { fs := fun _ => FileEntry.unreadable
    net := fun _ => some [7]
    createFails := fun _ => false }

/-- A world with an empty cache, a working network, and failing file
creation. -/
def worldNoCreate : World :=
  { fs := fun _ => FileEntry.absent
    net := fun _ => some [7]
    createFails := fun _ => true }

/-- Page 1 of the three-page witness chain: one paragraph and a "Next"
link. -/
def chainPage1 : Page := ⟨["1 one"], [⟨"Next", "P2.HTM"⟩]⟩

/-- Page 2 of the three-page witness chain. -/
def chainPage2 : Page := ⟨["2 two"], [⟨"Next", "P3.HTM"⟩]⟩

/-- Page 3 of the three-page witness chain: no "Next" link. -/
def chainPage3 : Page := ⟨["3 three"], []⟩

/-- Start URL of the witness chain. -/
def chainURL1 : String := "START.HTM"

/-- URL of the second witness page, as the walker resolves it. -/
def chainURL2 : String := "https://www.vatican.va/archive/ENG0015/P2.HTM"

/-- URL of the third witness page, as the walker resolves it. -/
def chainURL3 : String := "https://www.vatican.va/archive/ENG0015/P3.HTM"

/-- The three-page witness web. -/
def chainWeb : String → Option Page := fun u =>
  if u = chainURL1 then some chainPage1
  else if u = chainURL2 then some chainPage2
  else if u = chainURL3 then some chainPage3
  else none

/-- A one-entry index used by the C9 witness. -/
def indexOne : Index := processPage [] ["1 one"]

/-! ## Helper lemmas -/

/-- The overwrite-on-match fold of getNextLink computes the last match:
the first match of the reversed anchor list, falling back to the
accumulator. -/
theorem getNextLink_go (l : List Anchor) (init : Option Anchor) :
    l.foldl (fun nxt a => if a.text == "Next" then some a else nxt) init
      = (l.reverse.find? (fun a => a.text == "Next")).or init := by
  induction l generalizing init with
  | nil => simp
  | cons a l ih =>
    simp only [List.foldl_cons, List.reverse_cons, List.find?_append, ih]
    cases h : l.reverse.find? (fun a => a.text == "Next") with
    | some b => simp [Option.or]
    | none =>
      by_cases hp : (a.text == "Next") = true <;> simp [Option.or, List.find?, hp]

/-- Successful extraction returns the value of the leading digit run. -/
theorem extractNumber_spec (s : List Char) (h1 : leadingDigits s ≠ [])
    (h2 : digitsToNat (leadingDigits s) ≤ intMax) :
    extractNumber s = (digitsToNat (leadingDigits s), true) := by
  simp [extractNumber, h1, atoiDigits, h2]

/-- A node without a leading digit yields no candidate. -/
theorem extractNumber_none (s : List Char) (h : leadingDigits s = []) :
    extractNumber s = (0, false) := by
  simp [extractNumber, h]

/-! ## Claim theorems -/

/-- C1 (amended): when a parsed page holds several anchors labeled exactly
"Next", getNextLink returns the LAST such anchor in document order — the
first match of the reversed anchor list — because the assignment in the
Each callback overwrites earlier matches. -/
theorem c1_next_link_last_match (l : List Anchor) :
    getNextLink l = l.reverse.find? (fun a => a.text == "Next") := by
  simpa [getNextLink] using getNextLink_go l none

/-- C1 counterexample: on a page whose anchors are two distinct links both
labeled "Next", getNextLink returns the second one, not the first as the
claim states. -/
theorem c1_counterexample :
    getNextLink [nextA, nextB] = some nextB ∧ getNextLink [nextA, nextB] ≠ some nextA := by
  decide

/-- C2 (amended): an input whose lowercased form starts with "http" is
returned unchanged, but resolving "/archive/ENG0015/_INDEX.HTM" joins the
already-rooted path under the archive root again, yielding the doubled
path "https://www.vatican.va/archive/ENG0015/archive/ENG0015/_INDEX.HTM". -/
theorem c2_resolution :
    (∀ s : String, lowerHttp s.data = true → vaticanURL s = s) ∧
      vaticanURL "/archive/ENG0015/_INDEX.HTM"
        = "https://www.vatican.va/archive/ENG0015/archive/ENG0015/_INDEX.HTM" := by
  refine ⟨fun s h => ?_, by decide⟩
  simp [vaticanURL, h]

/-- C2 witness: the absolute-URL half of the amended claim at the spec's
own vector "https://example.com/x". -/
theorem c2_resolution_witness :
    lowerHttp "https://example.com/x".data = true ∧
      vaticanURL "https://example.com/x" = "https://example.com/x" :=
  ⟨by decide, c2_resolution.1 "https://example.com/x" (by decide)⟩

/-- C2 counterexample: the spec's first test vector fails — resolving
"/archive/ENG0015/_INDEX.HTM" does not yield
"https://www.vatican.va/archive/ENG0015/_INDEX.HTM". -/
theorem c2_counterexample :
    vaticanURL "/archive/ENG0015/_INDEX.HTM"
      ≠ "https://www.vatican.va/archive/ENG0015/_INDEX.HTM" := by
  decide

/-- C5 (amended): a node whose flattened text begins with decimal digits
yields the candidate (value of the digit run, full node text) provided
that value fits Go's 64-bit int (strconv.Atoi succeeds); nodes without a
leading digit are skipped; and the spec's three-node example extracts
exactly [(123, "123 Some text"), (456, "456 More text")] in document
order. -/
theorem c5_extraction :
    (∀ s : List Char, leadingDigits s ≠ [] → digitsToNat (leadingDigits s) ≤ intMax →
        extractNumber s = (digitsToNat (leadingDigits s), true)) ∧
    (∀ s : List Char, leadingDigits s = [] → extractNumber s = (0, false)) ∧
    candidates ["123 Some text", "Not numbered", "456 More text"]
      = [(123, "123 Some text"), (456, "456 More text")] :=
  ⟨fun s h1 h2 => extractNumber_spec s h1 h2,
   fun s h => extractNumber_none s h,
   by decide⟩

/-- C5 witness: the amended extraction rule at the concrete node
"123 Some text". -/
theorem c5_extraction_witness :
    leadingDigits "123 Some text".data ≠ [] ∧
      extractNumber "123 Some text".data
        = (digitsToNat (leadingDigits "123 Some text".data), true) :=
  ⟨by decide, c5_extraction.1 "123 Some text".data (by decide) (by decide)⟩

/-- C5 counterexample: a node whose text begins with a 20-digit run
(larger than 2^63 - 1) makes strconv.Atoi overflow, so the node yields no
candidate even though its text begins with decimal digits, contrary to
the claim. -/
theorem c5_counterexample :
    leadingDigits "99999999999999999999 x".data ≠ [] ∧
      extractNumber "99999999999999999999 x".data = (0, false) ∧
      candidates ["99999999999999999999 x"] = [] := by
  decide

/-- C7 (code bug exhibit): when the cache file exists but cannot be read
back, getOnce does NOT terminate the process — it prints a diagnostic and
returns an empty byte stream (result = some [], not none), making no
network call; by contrast a file-creation failure does terminate the
process (result = none), as the claim says. -/
theorem c7_read_failure_not_fatal :
    (getOnce worldUnreadable "X.HTM").result = some [] ∧
      (getOnce worldUnreadable "X.HTM").netCalls = 0 ∧
      (getOnce worldNoCreate "X.HTM").result = none := by
  decide

/-- C9: looking up a paragraph number absent from the index yields the
zero-value paragraph, whose Text is the empty string; main prints it and
does not treat the miss as a failure. -/
theorem c9_lookup_miss (m : Index) (n : Nat) (h : idxLookup m n = none) :
    lookupText m n = "" := by
  simp [lookupText, h]

/-- C9 witness: the number 2 is absent from the one-entry index, and its
looked-up Text is empty. -/
theorem c9_lookup_miss_witness :
    idxLookup indexOne 2 = none ∧ lookupText indexOne 2 = "" :=
  ⟨by decide, c9_lookup_miss indexOne 2 (by decide)⟩

/-- Lookup in a map extended on the right by one binding: the old binding
wins, the new one answers only previously-absent keys. -/
theorem idxLookup_append_single (m : Index) (k : Nat) (p : Paragraph) (n : Nat) :
    idxLookup (m ++ [(k, p)]) n
      = (idxLookup m n).or (if k == n then some p else none) := by
  simp only [idxLookup, List.find?_append]
  cases h : m.find? (fun e => e.1 == n) with
  | some e => simp [Option.or]
  | none =>
    by_cases hk : (k == n) = true <;> simp [List.find?, hk, Option.or]

/-- The page-processing loop realizes first-write-wins over the candidate
stream: afterwards, a key answers with its old binding if it had one, else
with the first candidate of the page carrying that number. -/
theorem processPage_lookup (ts : List String) : ∀ (m : Index) (n : Nat),
    idxLookup (processPage m ts) n
      = (idxLookup m n).or
          (((candidates ts).find? (fun c => c.1 == n)).map
            (fun c => (⟨c.1, c.2⟩ : Paragraph))) := by
  induction ts with
  | nil => intro m n; simp [processPage, candidates]
  | cons t ts ih =>
    intro m n
    simp only [processPage, candidates, List.filterMap_cons]
    cases hr : (extractNumber t.data).2 with
    | false =>
      simp only [hr, Bool.false_and, Bool.false_eq_true, if_false]
      simpa [candidates] using ih m n
    | true =>
      simp only [hr, Bool.true_and, if_true]
      cases hl : idxLookup m (extractNumber t.data).1 with
      | some q =>
        simp only [hl, Option.isNone_some, Bool.false_eq_true, if_false]
        rw [ih m n]
        by_cases hn : ((extractNumber t.data).1 == n) = true
        · have hn' : (extractNumber t.data).1 = n := by simpa using hn
          have hmn : idxLookup m n = some q := hn' ▸ hl
          simp [hn, hmn, Option.or, candidates]
        · have hb : ((extractNumber t.data).1 == n) = false := by simpa using hn
          simp [hb, candidates]
      | none =>
        simp only [hl, Option.isNone_none, if_true]
        rw [ih _ n, idxLookup_append_single]
        by_cases hn : ((extractNumber t.data).1 == n) = true
        · have hn' : (extractNumber t.data).1 = n := by simpa using hn
          have hmn : idxLookup m n = none := hn' ▸ hl
          simp [hn, hmn, Option.or, candidates]
        · have hb : ((extractNumber t.data).1 == n) = false := by simpa using hn
          simp [hb, Option.or_none, candidates]

/-- C3: starting from the empty index, after processing any candidate
stream a key's stored paragraph is built from the FIRST candidate carrying
that number (later candidates with the same number are discarded), and the
spec's instance — number 10 inserted twice with different texts — keeps
the first text. -/
theorem c3_first_write_wins :
    (∀ (ts : List String) (n : Nat),
        idxLookup (processPage [] ts) n
          = ((candidates ts).find? (fun c => c.1 == n)).map
              (fun c => (⟨c.1, c.2⟩ : Paragraph))) ∧
      idxLookup (processPage [] ["10 alpha", "10 beta"]) 10
        = some ⟨10, "10 alpha"⟩ := by
  constructor
  · intro ts n
    simpa [idxLookup] using processPage_lookup ts [] n
  · decide

/-- A successful extraction means the text begins with a digit run whose
value is the extracted number. -/
theorem extractNumber_true (s : List Char) (h : (extractNumber s).2 = true) :
    leadingDigits s ≠ [] ∧ digitsToNat (leadingDigits s) = (extractNumber s).1 := by
  by_cases h1 : leadingDigits s = []
  · simp [extractNumber, h1] at h
  · refine ⟨h1, ?_⟩
    by_cases h2 : digitsToNat (leadingDigits s) ≤ intMax
    · simp [extractNumber, h1, atoiDigits, h2]
    · simp [extractNumber, h1, atoiDigits, h2] at h

/-- Every insertion of the page loop preserves the key-consistency
invariant. -/
theorem processPage_inv (ts : List String) : ∀ m : Index,
    IndexInv m → IndexInv (processPage m ts) := by
  induction ts with
  | nil => intro m h; exact h
  | cons t ts ih =>
    intro m h
    simp only [processPage]
    apply ih
    by_cases hc : ((extractNumber t.data).2
        && (idxLookup m (extractNumber t.data).1).isNone) = true
    · rw [if_pos hc]
      intro e he
      rcases List.mem_append.mp he with hm | hs
      · exact h e hm
      · have he' : e = ((extractNumber t.data).1,
            (⟨(extractNumber t.data).1, t⟩ : Paragraph)) := by simpa using hs
        subst he'
        have hr : (extractNumber t.data).2 = true := by
          have := hc
          simp [Bool.and_eq_true] at this
          exact this.1
        obtain ⟨hd, hv⟩ := extractNumber_true t.data hr
        exact ⟨rfl, hd, hv⟩
    · rw [if_neg hc]
      exact h

/-- The crawl loop preserves the key-consistency invariant from any start
state to its final index. -/
theorem getCatechism_inv (web : String → Option Page) :
    ∀ (fuel : Nat) (url : String) (m : Index) (visited : List String)
      (out : Index × List String),
      IndexInv m → getCatechism web fuel url m visited = some out →
        IndexInv out.1 := by
  intro fuel
  induction fuel with
  | zero => intro url m visited out h hc; simp [getCatechism] at hc
  | succ f ih =>
    intro url m visited out h hc
    rw [getCatechism] at hc
    split at hc
    · simp at hc
    · split at hc
      · cases hc
        exact processPage_inv _ _ h
      · exact ih _ _ _ _ (processPage_inv _ _ h) hc

/-- C10: key consistency — every entry of an index reached by the crawl
stores a paragraph whose Number is its key and whose Text begins with a
digit run of that value; the invariant is preserved by each page's
insertions and by the whole crawl loop. -/
theorem c10_index_consistent :
    (∀ (m : Index) (ts : List String), IndexInv m → IndexInv (processPage m ts)) ∧
      (∀ (web : String → Option Page) (fuel : Nat) (url : String) (m : Index)
          (visited : List String) (out : Index × List String),
        IndexInv m → getCatechism web fuel url m visited = some out →
          IndexInv out.1) :=
  ⟨fun m ts h => processPage_inv ts m h,
   fun web fuel url m visited out h hc =>
     getCatechism_inv web fuel url m visited out h hc⟩

/-- C10 witness: processing one concrete page from the empty index
produces a key-consistent index. -/
theorem c10_index_consistent_witness : IndexInv (processPage [] ["5 five"]) :=
  c10_index_consistent.1 [] ["5 five"] (fun e he => absurd he (List.not_mem_nil e))

/-- Trimming trailing underscores only removes characters. -/
theorem mem_trimUnderscores (l : List Char) (c : Char)
    (h : c ∈ trimUnderscores l) : c ∈ l := by
  unfold trimUnderscores at h
  have h1 := List.mem_reverse.mp h
  have h2 := (List.dropWhile_sublist _).mem h1
  exact List.mem_reverse.mp h2

/-- After replacing every slash by an underscore, no slash remains. -/
theorem no_slash_replaceSlashes (p : List Char) : '/' ∉ replaceSlashes p := by
  intro h
  obtain ⟨c, _, hc⟩ := List.mem_map.mp h
  by_cases hcs : c = '/'
  · rw [if_pos hcs] at hc
    exact absurd hc (by decide)
  · rw [if_neg hcs] at hc
    exact hcs hc

/-- A slash-free string splits into a single segment. -/
theorem splitSlash_no_slash (s : List Char) (h : '/' ∉ s) : splitSlash s = [s] := by
  induction s with
  | nil => rfl
  | cons c cs ih =>
    have hc : c ≠ '/' := fun e => h (e ▸ List.mem_cons_self c cs)
    have hcs : '/' ∉ cs := fun e => h (List.mem_cons_of_mem c e)
    simp [splitSlash, hc, ih hcs]

/-- A slash-free string is not a rooted path. -/
theorem isRooted_false (s : List Char) (h : '/' ∉ s) : isRooted s = false := by
  cases s with
  | nil => rfl
  | cons c cs =>
    have hc : c ≠ '/' := fun e => h (e ▸ List.mem_cons_self c cs)
    simp [isRooted, hc]

/-- Cleaning a slash-free path is the identity, except that the empty,
"." and (vacuously) over-popped paths clean to ".". -/
theorem pathClean_no_slash (s : List Char) (h : '/' ∉ s) :
    pathClean s = s ∨ pathClean s = ['.'] := by
  by_cases hs : s = []
  · right; simp [pathClean, hs]
  · have hr := isRooted_false s h
    have hsp := splitSlash_no_slash s h
    by_cases h1 : s = ['.']
    · subst h1; right; decide
    · by_cases h2 : s = ['.', '.']
      · subst h2; left; decide
      · left; simp [pathClean, hs, hr, hsp, cleanCore, h1, h2, joinSegs]

/-- C8 (amended): for every URL the derived cache key contains no path
separator and none of the filesystem-illegal characters.  The no-traversal
part of the claim is dropped: the key can be exactly ".." (see the
counterexample), though never a longer path containing a ".." segment. -/
theorem c8_filename_safe (u : String) :
    '/' ∉ (urlToFilename u).data ∧
      ∀ c ∈ (urlToFilename u).data, illegalChar c = false := by
  have hs : '/' ∉ removeIllegal (trimUnderscores (replaceSlashes (urlPath u.data))) := by
    intro hmem
    exact no_slash_replaceSlashes (urlPath u.data)
      (mem_trimUnderscores _ _ (List.mem_filter.mp hmem).1)
  have hclean := pathClean_no_slash _ hs
  have hdata : (urlToFilename u).data
      = pathClean (removeIllegal (trimUnderscores (replaceSlashes (urlPath u.data)))) := rfl
  constructor
  · rw [hdata]
    rcases hclean with hof | hof <;> rw [hof]
    · exact hs
    · intro hmem
      simp at hmem
  · intro c hc
    rw [hdata] at hc
    rcases hclean with hof | hof <;> rw [hof] at hc
    · have := (List.mem_filter.mp hc).2
      simpa using this
    · have hcd : c = '.' := by simpa using hc
      subst hcd
      decide

/-- C8 counterexample: the URL "../" contains a path separator, yet its
derived cache key is exactly the traversal segment "..", which names the
parent of the cache directory. -/
theorem c8_counterexample :
    '/' ∈ "../".data ∧ urlToFilename "../" = ".." := by
  decide

/-- C4: once a call to getOnce has succeeded (did not exit), a repeated
call with the same URL makes no network request, returns byte-identical
content, and leaves the world unchanged — it is satisfied from the cache
file alone. -/
theorem c4_cache_idempotent (w : World) (u : String) (b : List Nat)
    (h : (getOnce w u).result = some b) :
    (getOnce (getOnce w u).world u).netCalls = 0 ∧
      (getOnce (getOnce w u).world u).result = some b ∧
      (getOnce (getOnce w u).world u).world = (getOnce w u).world := by
  cases hf : w.fs (cacheFilename u) with
  | absent =>
    cases hn : w.net (urlFull u) with
    | none => simp [getOnce, hf, hn] at h
    | some body =>
      by_cases hcr : w.createFails (cacheFilename u) = true
      · simp [getOnce, hf, hn, hcr] at h
      · simp [getOnce, readBack, hf, hn, hcr] at h ⊢
        simp [h]
  | present b0 =>
    simp [getOnce, readBack, hf] at h ⊢
    simp [h]
  | unreadable =>
    simp [getOnce, readBack, hf] at h ⊢
    simp [← h]

/-- C4 witness: a cold-cache world; the first call succeeds with the
fetched bytes, the second call makes no network request and returns the
same bytes. -/
theorem c4_cache_idempotent_witness :
    (getOnce worldCold "A.HTM").result = some [7] ∧
      (getOnce (getOnce worldCold "A.HTM").world "A.HTM").netCalls = 0 ∧
      (getOnce (getOnce worldCold "A.HTM").world "A.HTM").result = some [7] :=
  ⟨by decide,
   (c4_cache_idempotent worldCold "A.HTM" [7] (by decide)).1,
   (c4_cache_idempotent worldCold "A.HTM" [7] (by decide)).2.1⟩

/-- A chain of pages is crawled to its end: the walker processes exactly
the chain's URLs in order, then stops with the accumulated index, for any
fuel at least the chain length. -/
theorem chain_crawl (web : String → Option Page) :
    ∀ (us : List String), Chain web us →
      ∀ (u : String) (rest : List String), us = u :: rest →
        ∀ (m : Index) (visited : List String) (fuel : Nat), us.length ≤ fuel →
          ∃ m2, getCatechism web fuel u m visited = some (m2, visited ++ us) := by
  intro us hch
  induction hch with
  | single u0 p hw hn =>
    intro u rest heq m visited fuel hfuel
    injection heq with h1 h2
    subst h1
    subst h2
    cases fuel with
    | zero => simp at hfuel
    | succ f =>
      refine ⟨processPage m p.paras, ?_⟩
      rw [getCatechism]
      simp [hw, hn]
  | cons u0 v p a rest2 hw hn hres hch2 ih =>
    intro u rest heq m visited fuel hfuel
    injection heq with h1 h2
    subst h1
    subst h2
    cases fuel with
    | zero => simp at hfuel
    | succ f =>
      have hf2 : (v :: rest2).length ≤ f := by
        simp only [List.length_cons] at hfuel ⊢
        omega
      obtain ⟨m2, hm2⟩ := ih v rest2 rfl (processPage m p.paras) (visited ++ [u0]) f hf2
      refine ⟨m2, ?_⟩
      rw [getCatechism]
      simp only [hw, hn, hres]
      rw [hm2]
      simp

/-- C6: for every finite pagination chain in which each page but the last
yields a "Next" link and the last yields none, the walker visits exactly
the chain's pages in chain order and then halts, returning the index,
within fuel equal to (or beyond) the chain length. -/
theorem c6_pagination_terminates (web : String → Option Page) (u : String)
    (rest : List String) (h : Chain web (u :: rest)) (fuel : Nat)
    (hfuel : (u :: rest).length ≤ fuel) :
    ∃ m2, getCatechism web fuel u [] [] = some (m2, u :: rest) := by
  simpa using chain_crawl web (u :: rest) h u rest rfl [] [] fuel hfuel

/-- C6 witness: the spec's three-page mock chain — pages 1 and 2 carry a
"Next" link, page 3 does not — is visited as exactly three pages and the
walker halts. -/
theorem c6_pagination_terminates_witness :
    ∃ m2, getCatechism chainWeb 3 chainURL1 [] []
      = some (m2, [chainURL1, chainURL2, chainURL3]) :=
  c6_pagination_terminates chainWeb chainURL1 [chainURL2, chainURL3]
    (Chain.cons chainURL1 chainURL2 chainPage1 ⟨"Next", "P2.HTM"⟩ [chainURL3]
      (by decide) (by decide) (by decide)
      (Chain.cons chainURL2 chainURL3 chainPage2 ⟨"Next", "P3.HTM"⟩ []
        (by decide) (by decide) (by decide)
        (Chain.single chainURL3 chainPage3 (by decide) (by decide))))
    3 (by decide)

end CCC
